import Mathlib

/-!
Verification of the data-loading core of dcase2020_task2
(src/dcase2020_task2/data_sets/mcm_dataset.py).

The embedding models the two classes of the file:

* MachineDataSet: file selection, per-file mel-spectrogram extraction
  (librosa kept abstract), pad/truncate to the canonical first-file length,
  on-disk caching keyed by a parameter-derived file name, windowed indexing
  and per-sample metadata.
* MCMDataSet: the aggregate (machine_id = -1) mean/std computation.

Machine integers are modelled as Int (Python ints are unbounded); the
float-valued spectrogram power exponent is modelled as a rational, which is
exact for the only two values the code accepts (1 and 2).  Feature values
are an arbitrary type beta since the code never inspects them.  Fallible
code (assert, raise, numpy shape errors) returns Except Unit.
-/

namespace DcaseMCM

/-- Equality of Except values is decidable when both components are; used
to evaluate the model on concrete inputs. -/
instance {ε α : Type} [DecidableEq ε] [DecidableEq α] : DecidableEq (Except ε α)
  | Except.error e, Except.error e' =>
    if h : e = e' then isTrue (by rw [h]) else isFalse (by intro hh; cases hh; exact h rfl)
  | Except.error _, Except.ok _ => isFalse (by intro hh; cases hh)
  | Except.ok _, Except.error _ => isFalse (by intro hh; cases hh)
  | Except.ok a, Except.ok a' =>
    if h : a = a' then isTrue (by rw [h]) else isFalse (by intro hh; cases hh; exact h rfl)

/-! ## Python string helpers

The code builds the cache file name with str.format and parses file names
with str.split.  Lean 4.14 core implements String.splitOn and String.toNat?
by well-founded recursion over byte positions, which the kernel cannot
evaluate, so structurally recursive equivalents over the character list are
defined here.
-/

/-- Little-endian decimal digits of a natural number, with fuel for
structural recursion; natDigits below always supplies enough fuel. -/
def natDigitsAux : Nat → Nat → List Nat
  | 0, _ => []
  | _ + 1, 0 => []
  | fuel + 1, n + 1 => ((n + 1) % 10) :: natDigitsAux fuel ((n + 1) / 10)

/-- Little-endian decimal digits of a natural number. -/
def natDigits (n : Nat) : List Nat := natDigitsAux n n

/-- Python str of a non-negative integer. -/
def natStr (n : Nat) : String :=
  if n = 0 then ("0") else String.mk ((natDigits n).reverse.map Nat.digitChar)

/-- Python str of an unbounded integer. -/
def intStr (i : Int) : String :=
  if i < 0 then ("-") ++ natStr (-i).toNat else natStr i.toNat

/-- Python str of a bool: True or False. -/
def boolStr (b : Bool) : String := if b then ("True") else ("False")

/-- Python str of a float, for the spectrogram power parameter.  Faithful
for floats with integral value (Python renders 1.0 as the string 1.0);
non-integral values never reach the cache name because construction fails
earlier on an unsupported power, and are rendered with a slash. -/
def pyFloatStr (q : ℚ) : String :=
  if q.den = 1 then intStr q.num ++ (".0")
  else intStr q.num ++ ("/") ++ natStr q.den

/-- Python str.split on the underscore separator, on the character list.
Keeps empty pieces, like Python split with an explicit separator. -/
def splitUnd : List Char → List (List Char)
  | [] => [[]]
  | c :: cs =>
    let r := splitUnd cs
    if c = '_' then [] :: r
    else
      match r with
      | [] => [[c]]
      | x :: xs => (c :: x) :: xs

/-- Accumulator for pyInt. -/
def pyIntAux : List Char → Nat → Option Nat
  | [], acc => some acc
  | c :: cs, acc =>
    if c.isDigit then pyIntAux cs (acc * 10 + (c.toNat - ('0').toNat)) else none

/-- Python int() applied to a string, as used on the id field of a file
name: succeeds exactly on non-empty all-digit strings (sign and whitespace
handling are never exercised by the callers). -/
def pyInt (s : String) : Option Int :=
  match s.data with
  | [] => none
  | cs => (pyIntAux cs 0).map Int.ofNat

/-- os.sep.join of path components. -/
def joinSlash : List String → String
  | [] => ("")
  | [s] => s
  | s :: rest => s ++ ("/") ++ joinSlash rest

/-! ## Files and metadata -/

/-- A file path as its normalized components (what os.path.normpath
followed by repeated os.path.split produces). -/
structure AudioFile where
  parts : List String
  deriving DecidableEq

/-- The base file name, os.path.split(file_path)[-1]. -/
def fileName (f : AudioFile) : String := f.parts.getLastD ("")

/-- The machine-type directory: third-from-last path component, as computed
by the three nested os.path.split calls in __get_meta_data__. -/
def machineTypeDir (f : AudioFile) : String := f.parts.reverse.getD 2 ("")

/-- os.sep.join(os.path.normpath(file_path).split(os.sep)[-4:]). -/
def fileIdOf (f : AudioFile) : String :=
  joinSlash (f.parts.drop (f.parts.length - 4))

/-- The metadata dictionary built by MachineDataSet.__get_meta_data__.
machineTypes is modelled as the machine-type name rather than the integer
class index (see getMetaData). -/
structure MetaData where
  targets : Int
  machineTypes : String
  machineIds : Int
  fileIds : String
  deriving DecidableEq

/-- MachineDataSet.__get_meta_data__ (lines 248-272).  Splits the base file
name on underscores; a 4-field name carries a normal/anomaly prefix (label
0/1, any other prefix raises), a 3-field name gets label -1; the id field
must parse as an int equal to the machine id (assert).

Modelled from the spec: CLASS_MAP and INVERSE_CLASS_MAP are imported from
dcase2020_task2.data_sets, which is not under src/; the spec describes them
as a mapping between machine-type names and class indices, so the composed
check INVERSE_CLASS_MAP[CLASS_MAP[dir]] == self.machine_type (line 252) is
modelled as equality of the path machine-type directory with the machine
type of the data set, and the stored class index as the name itself. -/
def getMetaData (selfType : String) (machineId : Int) (f : AudioFile) :
    Except Unit MetaData :=
  let md := (splitUnd (fileName f).data).map String.mk
  let pathT := machineTypeDir f
  if pathT = selfType then
    match md with
    | [p, _, idStr, _] =>
      if p = ("normal") then
        match pyInt idStr with
        | some n =>
          if machineId = n then
            Except.ok ⟨0, pathT, machineId, fileIdOf f⟩
          else Except.error ()
        | none => Except.error ()
      else if p = ("anomaly") then
        match pyInt idStr with
        | some n =>
          if machineId = n then
            Except.ok ⟨1, pathT, machineId, fileIdOf f⟩
          else Except.error ()
        | none => Except.error ()
      else Except.error ()
    | [_, idStr, _] =>
      match pyInt idStr with
      | some n =>
        if machineId = n then
          Except.ok ⟨-1, pathT, machineId, fileIdOf f⟩
        else Except.error ()
      | none => Except.error ()
    | _ => Except.error ()
  else Except.error ()

/-- MachineDataSet.__load_meta_data__ (lines 175-180). -/
def loadMetaData (selfType : String) (machineId : Int) :
    List AudioFile → Except Unit (List MetaData)
  | [] => Except.ok []
  | f :: fs =>
    match getMetaData selfType machineId f with
    | Except.error e => Except.error e
    | Except.ok m =>
      match loadMetaData selfType machineId fs with
      | Except.error e => Except.error e
      | Except.ok ms => Except.ok (m :: ms)

/-! ## Configuration and the abstract audio pipeline -/

/-- The mode argument; any other string fails the assert on line 110. -/
inductive Mode where
  | training
  | validation
  deriving DecidableEq

/-- The string Python stores in self.mode. -/
def modeStr : Mode → String
  | Mode.training => ("training")
  | Mode.validation => ("validation")

/-- The constructor parameters of MachineDataSet.  machineType is the
machine-type name INVERSE_CLASS_MAP[machine_type] stored on line 122. -/
structure Config where
  dataRoot : String
  context : Int
  numMel : Nat
  nFft : Nat
  hopSize : Nat
  power : ℚ
  fmin : Int
  normalize : Bool
  hopAll : Bool
  machineType : String
  machineId : Int
  mode : Mode
  deriving DecidableEq

/-- The external audio stack (librosa and the id maps), kept abstract.
A is the type of loaded audio (the waveform together with its sample rate);
melFn receives n_fft, hop_length, n_mels, power and fmin. -/
structure Env (A β : Type) where
  audioOf : AudioFile → A
  normalizeFn : A → A
  melFn : Nat → Nat → Nat → ℚ → Int → A → List (List β)
  ampToDb : List (List β) → List (List β)
  powToDb : List (List β) → List (List β)
  trainingIds : List Int
  evalIds : List Int

/-- MachineDataSet.__load_preprocess_file__ (lines 224-246): optional raw
normalization, mel-spectrogram, then amplitude_to_db for power 1,
power_to_db for power 2, and AttributeError otherwise. -/
def loadPreprocessFile {A β : Type} (env : Env A β) (cfg : Config) (x : A) :
    Except Unit (List (List β)) :=
  let x2 := if cfg.normalize then env.normalizeFn x else x
  let m := env.melFn cfg.nFft cfg.hopSize cfg.numMel cfg.power cfg.fmin x2
  if cfg.power = 1 then Except.ok (env.ampToDb m)
  else if cfg.power = 2 then Except.ok (env.powToDb m)
  else Except.error ()

/-- Per-file feature extraction: librosa.load followed by
__load_preprocess_file__. -/
def fileFeat {A β : Type} (env : Env A β) (cfg : Config) (f : AudioFile) :
    Except Unit (List (List β)) :=
  loadPreprocessFile env cfg (env.audioOf f)

/-! ## Pad/truncate and the data array -/

/-- The body of the per-file length adjustment in __load_data__
(lines 206-216): a matrix is its list of time frames (columns); a short
file gets a prefix of itself appended, a long file is truncated. -/
def padTruncate {α : Type} (fl : Nat) (m : List α) : List α :=
  if m.length ≠ fl then
    if m.length < fl then m ++ m.take (fl - m.length)
    else m.take fl
  else m

/-- The cache-miss loop of __load_data__ (lines 203-218): np.empty of width
file_length * len(files) filled by one assignment per file.  The length
guard models the numpy shape error when a block does not fit its slot
(broadcasting a single column cannot arise: padTruncate returns one column
only when file_length itself is at most 1, where the guard passes). -/
def buildDataE {β : Type} (feat : AudioFile → Except Unit (List (List β)))
    (fl : Nat) : List AudioFile → Except Unit (List (List β))
  | [] => Except.ok []
  | f :: fs =>
    match feat f with
    | Except.error e => Except.error e
    | Except.ok m =>
      let m2 := padTruncate fl m
      if m2.length = fl then
        match buildDataE feat fl fs with
        | Except.error e => Except.error e
        | Except.ok rest => Except.ok (m2 ++ rest)
      else Except.error ()

/-! ## The cache -/

/-- The nine format arguments of the cache file name (line 183-193). -/
structure CacheParams where
  numMel : Nat
  nFft : Nat
  hopSize : Nat
  power : ℚ
  mode : Mode
  machineType : String
  machineId : Int
  normalize : Bool
  fmin : Int
  deriving DecidableEq

/-- The formatted cache file name of __load_data__. -/
def cacheFileName (p : CacheParams) : String :=
  natStr p.numMel ++ ("_") ++ natStr p.nFft ++ ("_") ++ natStr p.hopSize ++ ("_") ++
  pyFloatStr p.power ++ ("_") ++ modeStr p.mode ++ ("_") ++ p.machineType ++ ("_") ++
  intStr p.machineId ++ ("_") ++ boolStr p.normalize ++ ("_") ++ intStr p.fmin ++ (".npy")

/-- The cache parameters drawn from a configuration. -/
def cacheParamsOf (cfg : Config) : CacheParams :=
  ⟨cfg.numMel, cfg.nFft, cfg.hopSize, cfg.power, cfg.mode, cfg.machineType,
   cfg.machineId, cfg.normalize, cfg.fmin⟩

/-- The on-disk cache: a mapping from file paths to saved arrays. -/
abbrev Cache (β : Type) := List (String × List (List β))

/-- os.path.exists plus np.load. -/
def lookupCache {β : Type} (path : String) : Cache β → Option (List (List β))
  | [] => none
  | e :: rest => if e.1 = path then some e.2 else lookupCache path rest

/-- os.path.join(self.data_root, file_name) on line 194. -/
def cachePath (dataRoot : String) (p : CacheParams) : String :=
  dataRoot ++ ("/") ++ cacheFileName p

/-- MachineDataSet.__load_data__ (lines 182-222): load the saved array when
the cache file exists, otherwise build the concatenated array and save it. -/
def loadData {β : Type} (cache : Cache β) (dataRoot : String) (p : CacheParams)
    (fl : Nat) (feat : AudioFile → Except Unit (List (List β)))
    (files : List AudioFile) : Except Unit (List (List β) × Cache β) :=
  match lookupCache (cachePath dataRoot p) cache with
  | some d => Except.ok (d, cache)
  | none =>
    match buildDataE feat fl files with
    | Except.error e => Except.error e
    | Except.ok d => Except.ok (d, (cachePath dataRoot p, d) :: cache)

/-! ## The dataset object -/

/-- The state of a constructed MachineDataSet. -/
structure MachineDS (β : Type) where
  files : List AudioFile
  context : Int
  hopAll : Bool
  mode : Mode
  fileLength : Nat
  numSamplesPerFile : Int
  metaData : List MetaData
  data : List (List β)
  deriving DecidableEq

/-- Lines 111-112: validation mode forces hop_all to False. -/
def effHopAll (cfg : Config) : Bool :=
  if cfg.mode = Mode.validation then false else cfg.hopAll

/-- Line 154: windows per file, with Python floor division. -/
def nspfOf (cfg : Config) (fl : Nat) : Int :=
  if effHopAll cfg then Int.fdiv (fl : Int) cfg.context
  else (fl : Int) - cfg.context + 1

/-- MachineDataSet.__init__ (lines 94-156).  files is the sorted glob
result (the glob itself only filters the external directory tree and is not
modelled); the machine-id membership check selects dev_data or eval_data
and raises AttributeError for unknown ids; the first file fixes the
canonical length; a zero context with non-overlapping windowing is the
Python ZeroDivisionError on line 154. -/
def initDS {A β : Type} (env : Env A β) (cfg : Config) (files : List AudioFile)
    (cache : Cache β) : Except Unit (MachineDS β × Cache β) :=
  if cfg.machineId ∈ env.trainingIds ∨ cfg.machineId ∈ env.evalIds then
    match files with
    | [] => Except.error ()
    | f0 :: _ =>
      match fileFeat env cfg f0 with
      | Except.error e => Except.error e
      | Except.ok m0 =>
        if effHopAll cfg ∧ cfg.context = 0 then Except.error ()
        else
          match loadMetaData cfg.machineType cfg.machineId files with
          | Except.error e => Except.error e
          | Except.ok md =>
            match loadData cache cfg.dataRoot (cacheParamsOf cfg) m0.length
                (fileFeat env cfg) files with
            | Except.error e => Except.error e
            | Except.ok dc =>
              Except.ok
                ({ files := files, context := cfg.context, hopAll := effHopAll cfg,
                   mode := cfg.mode, fileLength := m0.length,
                   numSamplesPerFile := nspfOf cfg m0.length, metaData := md,
                   data := dc.1 }, dc.2)
  else Except.error ()

/-- MachineDataSet.__len__ (lines 172-173). -/
def dsLen {β : Type} (ds : MachineDS β) : Int :=
  (ds.files.length : Int) * ds.numSamplesPerFile

/-- Python slice-bound normalization for xs[a:b]: negative indices count
from the end, out-of-range bounds clamp. -/
def sliceBound (n : Nat) (i : Int) : Nat :=
  if i < 0 then (i + (n : Int)).toNat else min i.toNat n

/-- Python list/array slicing xs[a:b]. -/
def pySlice {α : Type} (xs : List α) (a b : Int) : List α :=
  (xs.take (sliceBound xs.length b)).drop (sliceBound xs.length a)

/-- Python list indexing xs[i]: negative indices count from the end,
out-of-range raises. -/
def pyGet {α : Type} (xs : List α) (i : Int) : Option α :=
  if 0 ≤ i then xs[i.toNat]?
  else if 0 ≤ i + (xs.length : Int) then xs[(i + (xs.length : Int)).toNat]? else none

/-- The global column offset computed on lines 160-164: file index times
file length, plus the in-file offset, scaled by the context width under
non-overlapping windowing. -/
def windowStart (n fl ctx : Int) (hopAll : Bool) (item : Int) : Int :=
  Int.fdiv item n * fl +
    (if hopAll then Int.fmod item n * ctx else Int.fmod item n)

/-- The slice start used by __getitem__ on a dataset. -/
def sliceStart {β : Type} (ds : MachineDS β) (item : Int) : Int :=
  windowStart ds.numSamplesPerFile (ds.fileLength : Int) ds.context ds.hopAll item

/-- The dictionary returned by __getitem__: the copied per-file metadata
plus the observations entry, a feature slice with a leading singleton
channel dimension (observation[None]). -/
structure Sample (β : Type) where
  meta : MetaData
  observations : List (List (List β))
  deriving DecidableEq

/-- MachineDataSet.__getitem__ (lines 158-170). -/
def getItem {β : Type} (ds : MachineDS β) (item : Int) : Option (Sample β) :=
  (pyGet ds.metaData (Int.fdiv item ds.numSamplesPerFile)).map fun md =>
    { meta := md,
      observations :=
        [pySlice ds.data (sliceStart ds item) (sliceStart ds item + ds.context)] }

/-- All columns of a feature matrix have the given height (num_mel rows). -/
def ColsOf {β : Type} (n : Nat) (m : List (List β)) : Prop :=
  ∀ c ∈ m, c.length = n

/-! ## Aggregate mean and std (MCMDataSet, machine_id = -1) -/

/-- np.mean of a list of values. -/
def meanRow (xs : List ℚ) : ℚ := xs.sum / (xs.length : ℚ)

/-- The values of one mel row across all time frames (axis 1). -/
def rowVals (data : List (List ℚ)) (j : Nat) : List ℚ :=
  data.map (fun c => c.getD j 0)

/-- np.mean(axis=1) over a (numMel, T) array, one entry per mel row
(keepdims only reshapes and is dropped). -/
def npMean (numMel : Nat) (data : List (List ℚ)) : List ℚ :=
  (List.range numMel).map (fun j => meanRow (rowVals data j))

/-- The variance used by np.std: mean squared deviation from the mean. -/
def varRow (xs : List ℚ) : ℚ := meanRow (xs.map (fun v => (v - meanRow xs) ^ 2))

/-- np.std(axis=1), with the square root kept abstract (its argument is
rational in the model, its value need not be). -/
def npStd (sqrtFn : ℚ → ℚ) (numMel : Nat) (data : List (List ℚ)) : List ℚ :=
  (List.range numMel).map (fun j => sqrtFn (varRow (rowVals data j)))

/-- The aggregate branch of MCMDataSet.__init__ (lines 49-64): one training
sub-dataset per id, their feature matrices appended in order and
concatenated along the time axis, then per-row mean and std.  dataOf id is
the feature matrix of the per-id training MachineDataSet. -/
def aggregateMeanStd (sqrtFn : ℚ → ℚ) (numMel : Nat) (ids : List Int)
    (dataOf : Int → List (List ℚ)) : List ℚ × List ℚ :=
  let data := List.flatten (ids.map dataOf)
  (npMean numMel data, npStd sqrtFn numMel data)

/-! ## Reference-level model of __getitem__ for the mutation claim

Python dictionaries are mutable heap objects; meta_data holds one dict per
file and __getitem__ copies the selected dict before inserting the
observations key.  The heap holds the dictionaries, the dataset the
addresses; dict copy allocates a fresh cell. -/

/-- A Python value stored in a metadata dictionary. -/
inductive PyVal (β : Type) where
  | intV : Int → PyVal β
  | strV : String → PyVal β
  | arrV : List (List (List β)) → PyVal β
  deriving DecidableEq

/-- A Python dict as an insertion-ordered association list. -/
abbrev PyDict (β : Type) := List (String × PyVal β)

/-- Python dict assignment d[k] = v: replace in place, append when new. -/
def dictSet {β : Type} (d : PyDict β) (k : String) (v : PyVal β) : PyDict β :=
  if d.any (fun kv => kv.1 = k) then
    d.map (fun kv => if kv.1 = k then (k, v) else kv)
  else d ++ [(k, v)]

/-- The dict literal returned by __get_meta_data__. -/
def metaToDict {β : Type} (m : MetaData) : PyDict β :=
  [(("targets"), PyVal.intV m.targets), (("machine_types"), PyVal.strV m.machineTypes),
   (("machine_ids"), PyVal.intV m.machineIds), (("file_ids"), PyVal.strV m.fileIds)]

/-- The heap of metadata dictionaries. -/
structure Heap (β : Type) where
  cells : List (PyDict β)
  deriving DecidableEq

/-- The dataset state with metadata as heap addresses. -/
structure DS9 (β : Type) where
  context : Int
  hopAll : Bool
  fileLength : Nat
  numSamplesPerFile : Int
  metaAddrs : List Nat
  data : List (List β)
  deriving DecidableEq

/-- __getitem__ with explicit dictionary state: index the metadata list,
copy the dict into a fresh cell (dict.copy on line 167), then assign the
observations key on the copy (line 168).  Returns the address of the copy
and the new heap. -/
def getItemRef {β : Type} (ds : DS9 β) (h : Heap β) (item : Int) :
    Option (Nat × Heap β) :=
  let st := windowStart ds.numSamplesPerFile (ds.fileLength : Int) ds.context
    ds.hopAll item
  let obs := pySlice ds.data st (st + ds.context)
  (pyGet ds.metaAddrs (Int.fdiv item ds.numSamplesPerFile)).map fun a =>
    let d := h.cells.getD a []
    let fresh := h.cells.length
    let h2 : Heap β := ⟨(h.cells ++ [d]).set fresh (dictSet d ("observations") (PyVal.arrV [obs]))⟩
    (fresh, h2)

/-! ## Concrete instances used by the witnesses -/

/-- Development-set files of machine type fan, id 00; the third file has a
one-frame spectrogram (shorter than half the canonical length). -/
def exFileA : AudioFile := ⟨[("dev_data"), ("fan"), ("train"), ("normal_id_00_00000000.wav")]⟩

/-- Second example file. -/
def exFileB : AudioFile := ⟨[("dev_data"), ("fan"), ("train"), ("normal_id_00_00000001.wav")]⟩

/-- Third example file, whose audio yields a single frame. -/
def exFileC : AudioFile := ⟨[("dev_data"), ("fan"), ("train"), ("normal_id_00_00000002.wav")]⟩

/-- A concrete audio stack: audio is already a column list; the
mel-spectrogram keeps the frame count and makes every column a single mel
bin; the dB conversions are the identity. -/
def exEnv : Env (List (List Int)) Int where
  audioOf f :=
    if fileName f = fileName exFileA then [[1], [2], [3], [4]]
    else if fileName f = fileName exFileC then [[9]]
    else [[5], [6], [7], [8]]
  normalizeFn x := x
  melFn _ _ _ _ _ x := x.map (fun _ => [0])
  ampToDb m := m
  powToDb m := m
  trainingIds := [0]
  evalIds := []

/-- A concrete configuration: context 2, one mel bin, power 1, training
mode, sliding windows. -/
def exCfg : Config :=
  { dataRoot := ("root"), context := 2, numMel := 1, nFft := 16, hopSize := 8,
    power := 1, fmin := 0, normalize := false, hopAll := false,
    machineType := ("fan"), machineId := 0, mode := Mode.training }

/-- The same configuration in validation mode with hop_all requested. -/
def exCfgV : Config := { exCfg with mode := Mode.validation, hopAll := true }

/-- The metadata of the first example file. -/
def exMetaA : MetaData := ⟨0, ("fan"), 0, ("dev_data/fan/train/normal_id_00_00000000.wav")⟩

/-- The metadata of the second example file. -/
def exMetaB : MetaData := ⟨0, ("fan"), 0, ("dev_data/fan/train/normal_id_00_00000001.wav")⟩

/-- The concatenated feature matrix of the two regular example files. -/
def exData : List (List Int) := List.replicate 8 [0]

/-- The dataset produced by initDS from the two regular example files. -/
def exDS : MachineDS Int :=
  { files := [exFileA, exFileB], context := 2, hopAll := false,
    mode := Mode.training, fileLength := 4, numSamplesPerFile := 3,
    metaData := [exMetaA, exMetaB], data := exData }

/-- The validation-mode dataset on the same files. -/
def exDSV : MachineDS Int :=
  { files := [exFileA, exFileB], context := 2, hopAll := false,
    mode := Mode.validation, fileLength := 4, numSamplesPerFile := 3,
    metaData := [exMetaA, exMetaB], data := exData }

/-- The cache path written by the training-mode example construction. -/
def exPath : String := ("root/1_16_8_1.0_training_fan_0_False_0.npy")

/-- The cache path written by the validation-mode example construction. -/
def exPathV : String := ("root/1_16_8_1.0_validation_fan_0_False_0.npy")

/-- The reference-model dataset for the mutation claim. -/
def exDS9 : DS9 Int :=
  { context := 2, hopAll := false, fileLength := 4, numSamplesPerFile := 3,
    metaAddrs := [0, 1], data := exData }

/-- The initial heap for the mutation claim: one dict per file. -/
def exHeap : Heap Int := ⟨[metaToDict exMetaA, metaToDict exMetaB]⟩

/-- The heap after one __getitem__ call at index 0: the two original
dictionaries plus the fresh copy carrying the observations entry. -/
def exHeap1 : Heap Int :=
  ⟨[metaToDict exMetaA, metaToDict exMetaB,
    dictSet (metaToDict exMetaA) ("observations") (PyVal.arrV [[[0], [0]]])]⟩

/-- The example configuration with an unsupported power exponent. -/
def exCfg3 : Config := { exCfg with power := 3 }

/-- A standalone per-file extraction with three different frame counts:
canonical 4, one frame too many, one frame too few. -/
def exFeat : AudioFile → Except Unit (List (List Int)) := fun f =>
  if fileName f = fileName exFileA then Except.ok [[1], [2], [3], [4]]
  else if fileName f = fileName exFileB then Except.ok [[5], [6], [7], [8], [9]]
  else Except.ok [[6], [7], [8]]

/-- A test-set file whose three-field name starts with the normal prefix. -/
def exFileN : AudioFile := ⟨[("dev_data"), ("fan"), ("test"), ("normal_00_1.wav")]⟩

/-- The value of a little-endian decimal digit list; inverse of natDigits,
used to show decimal rendering is injective. -/
def digitsVal : List Nat → Nat
  | [] => 0
  | d :: l => d + 10 * digitsVal l

/-! ## Theorems: pad/truncate (claim C1) -/

/-- A shortfall of at most the file length pads up to exactly the
canonical length; an excess always truncates to it. -/
lemma padTruncate_length {α : Type} {fl : Nat} {m : List α} (h : fl ≤ 2 * m.length) :
    (padTruncate fl m).length = fl := by
  unfold padTruncate
  split_ifs with h1 h2
  · simp only [List.length_append, List.length_take]
    omega
  · simp only [List.length_take]
    omega
  · omega

/-- Short files get a prefix of themselves appended. -/
lemma padTruncate_short {α : Type} {fl : Nat} {m : List α} (h : m.length < fl) :
    padTruncate fl m = m ++ m.take (fl - m.length) := by
  unfold padTruncate
  rw [if_pos (by omega), if_pos h]

/-- Long files are truncated. -/
lemma padTruncate_long {α : Type} {fl : Nat} {m : List α} (h : fl < m.length) :
    padTruncate fl m = m.take fl := by
  unfold padTruncate
  rw [if_pos (by omega), if_neg (by omega)]

/-- Claim C1 (amended): on the cache-miss path, provided every file is at
least half the canonical length, the build succeeds, the array is
file_length times the file count wide, and the block written for each file
is its pad/truncated matrix of exactly the canonical width — appending a
prefix of the file when short, truncating when long.  (Without the
half-length proviso the pad falls short; see the counterexample.) -/
theorem C1_pad_truncate {β : Type} (feat : AudioFile → Except Unit (List (List β)))
    (fl : Nat) (files : List AudioFile)
    (hfeat : ∀ f ∈ files, ∃ m, feat f = Except.ok m ∧ fl ≤ 2 * m.length) :
    ∃ d, buildDataE feat fl files = Except.ok d ∧ d.length = fl * files.length ∧
      ∀ k, (hk : k < files.length) → ∀ m, feat (files.get ⟨k, hk⟩) = Except.ok m →
        ((d.drop (k * fl)).take fl = padTruncate fl m ∧
         (padTruncate fl m).length = fl ∧
         (m.length < fl → padTruncate fl m = m ++ m.take (fl - m.length)) ∧
         (fl < m.length → padTruncate fl m = m.take fl)) := by
  induction files with
  | nil =>
    refine ⟨[], rfl, by simp, ?_⟩
    intro k hk
    simp at hk
  | cons f fs ih =>
    obtain ⟨m, hm, hlen⟩ := hfeat f (List.mem_cons_self f fs)
    obtain ⟨d, hd, hdlen, hseg⟩ := ih (fun g hg => hfeat g (List.mem_cons_of_mem f hg))
    have hptl : (padTruncate fl m).length = fl := padTruncate_length hlen
    refine ⟨padTruncate fl m ++ d, ?_, ?_, ?_⟩
    · simp [buildDataE, hm, hptl, hd]
    · rw [List.length_append, hdlen, hptl, List.length_cons, Nat.mul_succ]
      omega
    · intro k hk m' hm'
      cases k with
      | zero =>
        have hget : (f :: fs).get ⟨0, hk⟩ = f := rfl
        rw [hget] at hm'
        have hmm : m = m' := Except.ok.inj (hm.symm.trans hm')
        subst hmm
        refine ⟨?_, hptl, fun hlt => padTruncate_short hlt, fun hgt => padTruncate_long hgt⟩
        calc ((padTruncate fl m ++ d).drop (0 * fl)).take fl
            = (padTruncate fl m ++ d).take (padTruncate fl m).length := by
              rw [Nat.zero_mul, List.drop_zero, hptl]
          _ = padTruncate fl m := by simp
      | succ k' =>
        have hk' : k' < fs.length := by simpa using hk
        have hget : (f :: fs).get ⟨k' + 1, hk⟩ = fs.get ⟨k', hk'⟩ := rfl
        rw [hget] at hm'
        have hrec := hseg k' hk' m' hm'
        refine ⟨?_, hrec.2⟩
        have hsplit : (k' + 1) * fl = (padTruncate fl m).length + k' * fl := by
          rw [hptl]
          ring
        rw [hsplit, List.drop_append]
        exact hrec.1

/-- Witness for C1: three files of frame counts 4, 5 and 3 against the
canonical length 4 build successfully with the middle file truncated and
the last one padded. -/
theorem C1_pad_truncate_witness :
    ∃ d, buildDataE exFeat 4 [exFileA, exFileB, exFileC] = Except.ok d ∧
      d.length = 4 * ([exFileA, exFileB, exFileC] : List AudioFile).length ∧
      ∀ k, (hk : k < ([exFileA, exFileB, exFileC] : List AudioFile).length) → ∀ m,
        exFeat (([exFileA, exFileB, exFileC] : List AudioFile).get ⟨k, hk⟩) = Except.ok m →
        ((d.drop (k * 4)).take 4 = padTruncate 4 m ∧
         (padTruncate 4 m).length = 4 ∧
         (m.length < 4 → padTruncate 4 m = m ++ m.take (4 - m.length)) ∧
         (4 < m.length → padTruncate 4 m = m.take 4)) := by
  refine C1_pad_truncate exFeat 4 [exFileA, exFileB, exFileC] ?_
  intro f hf
  simp only [List.mem_cons, List.mem_singleton, List.not_mem_nil, or_false] at hf
  rcases hf with rfl | rfl | rfl
  · exact ⟨[[1], [2], [3], [4]], by decide, by decide⟩
  · exact ⟨[[5], [6], [7], [8], [9]], by decide, by decide⟩
  · exact ⟨[[6], [7], [8]], by decide, by decide⟩

/-- Counterexample for C1 as stated: a file shorter than half the
canonical length is padded to twice its own length, not to the canonical
length, and the construction fails on the numpy shape error instead of
writing a full-width block. -/
theorem C1_pad_counterexample :
    initDS exEnv exCfg [exFileA, exFileC] [] = Except.error () ∧
    fileFeat exEnv exCfg exFileC = Except.ok [[0]] ∧
    (padTruncate 4 [[(0 : Int)]]).length = 2 ∧
    ¬ (padTruncate 4 [[(0 : Int)]]).length = 4 := by decide

/-! ## Theorems: power dispatch (claim C8) -/

/-- Claim C8: per-file feature extraction fails exactly when the spectrogram
power exponent is neither 1 nor 2; power 1 returns the amplitude-to-dB mel
spectrogram and power 2 the power-to-dB one, both computed on the optionally
normalized audio. -/
theorem C8_power_dispatch {A β : Type} (env : Env A β) (cfg : Config) (x : A) :
    (loadPreprocessFile env cfg x = Except.error () ↔ cfg.power ≠ 1 ∧ cfg.power ≠ 2) ∧
    (cfg.power = 1 →
      loadPreprocessFile env cfg x =
        Except.ok (env.ampToDb (env.melFn cfg.nFft cfg.hopSize cfg.numMel cfg.power cfg.fmin
          (if cfg.normalize then env.normalizeFn x else x)))) ∧
    (cfg.power = 2 →
      loadPreprocessFile env cfg x =
        Except.ok (env.powToDb (env.melFn cfg.nFft cfg.hopSize cfg.numMel cfg.power cfg.fmin
          (if cfg.normalize then env.normalizeFn x else x)))) := by
  unfold loadPreprocessFile
  by_cases h1 : cfg.power = 1
  · simp [h1]
  · by_cases h2 : cfg.power = 2
    · simp [h1, h2]
    · simp [h1, h2]

/-- Witness for C8: power 1 succeeds with the dB-converted spectrogram,
power 3 fails. -/
theorem C8_power_dispatch_witness :
    (exCfg.power = 1 ∧ loadPreprocessFile exEnv exCfg [[7]] = Except.ok [[0]]) ∧
    (exCfg3.power ≠ 1 ∧ exCfg3.power ≠ 2 ∧
      loadPreprocessFile exEnv exCfg3 [[7]] = Except.error ()) := by
  refine ⟨⟨by decide, ?_⟩, by decide, by decide, ?_⟩
  · exact ((C8_power_dispatch exEnv exCfg [[7]]).2.1 (by decide)).trans (by decide)
  · exact (C8_power_dispatch exEnv exCfg3 [[7]]).1.mpr ⟨by decide, by decide⟩

/-! ## Theorems: aggregate mean/std (claim C7) -/

/-- Claim C7: for the aggregate machine id, the exposed mean and std equal
the per-row mean and std of the manual concatenation of the per-id training
feature matrices (appending them one by one along the time axis). -/
theorem C7_aggregate_mean_std (sqrtFn : ℚ → ℚ) (numMel : Nat) (ids : List Int)
    (dataOf : Int → List (List ℚ)) :
    aggregateMeanStd sqrtFn numMel ids dataOf =
      (npMean numMel ((ids.map dataOf).foldl (· ++ ·) []),
       npStd sqrtFn numMel ((ids.map dataOf).foldl (· ++ ·) [])) := by
  have key : ∀ (l : List (List (List ℚ))) (acc : List (List ℚ)),
      l.foldl (· ++ ·) acc = acc ++ List.flatten l := by
    intro l
    induction l with
    | nil => intro acc; simp
    | cons x xs ih =>
      intro acc
      simp [List.foldl_cons, ih, List.append_assoc]
  simp [aggregateMeanStd, key]

/-! ## Theorems: labels from file names (claim C5) -/

/-- Counterexample for C5 as stated: the three-field test-set name
normal_00_1.wav parses successfully, its prefix is the word normal, yet
the stored label is -1, not 0. -/
theorem C5_label_counterexample :
    getMetaData ("fan") 0 exFileN =
      Except.ok ⟨-1, ("fan"), 0, ("dev_data/fan/test/normal_00_1.wav")⟩ ∧
    ((splitUnd (fileName exFileN).data).map String.mk).headD ("") = ("normal") ∧
    (-1 : Int) ≠ 0 := by decide

/-- Claim C5 (amended): a file name that parses has either four fields, in
which case the label follows the prefix (normal 0, anomaly 1, and no other
prefix parses), or three fields, in which case the label is -1 regardless
of the prefix. -/
theorem C5_label_from_prefix (selfType : String) (machineId : Int) (f : AudioFile)
    (m : MetaData) (h : getMetaData selfType machineId f = Except.ok m) :
    (((splitUnd (fileName f).data).map String.mk).length = 4 ∧
      m.targets = (if ((splitUnd (fileName f).data).map String.mk).headD ("") = ("normal")
        then 0 else 1) ∧
      (((splitUnd (fileName f).data).map String.mk).headD ("") = ("normal") ∨
       ((splitUnd (fileName f).data).map String.mk).headD ("") = ("anomaly"))) ∨
    (((splitUnd (fileName f).data).map String.mk).length = 3 ∧ m.targets = -1) := by
  simp only [getMetaData] at h
  generalize hL : (splitUnd (fileName f).data).map String.mk = L at h ⊢
  split at h
  case isFalse => cases h
  case isTrue hpath =>
    rcases L with _ | ⟨p, _ | ⟨a2, _ | ⟨a3, _ | ⟨a4, rest⟩⟩⟩⟩
    · exact absurd h (by simp)
    · exact absurd h (by simp)
    · exact absurd h (by simp)
    · -- three fields: [p, a2, a3]
      right
      refine ⟨rfl, ?_⟩
      dsimp only at h
      rcases hpy : pyInt a2 with _ | n <;> rw [hpy] at h <;> dsimp only at h
      · cases h
      · split at h
        · exact (Except.ok.inj h).symm ▸ rfl
        · cases h
    · rcases rest with _ | ⟨a5, rest'⟩
      · -- four fields: [p, a2, a3, a4]
        left
        dsimp only at h
        by_cases hp : p = ("normal")
        · rw [if_pos hp] at h
          rcases hpy : pyInt a3 with _ | n <;> rw [hpy] at h <;> dsimp only at h
          · cases h
          · split at h
            · refine ⟨rfl, ?_, Or.inl (by simpa using hp)⟩
              have hm := (Except.ok.inj h).symm
              subst hm
              simp [hp]
            · cases h
        · rw [if_neg hp] at h
          by_cases hq : p = ("anomaly")
          · rw [if_pos hq] at h
            rcases hpy : pyInt a3 with _ | n <;> rw [hpy] at h <;> dsimp only at h
            · cases h
            · split at h
              · refine ⟨rfl, ?_, Or.inr (by simpa using hq)⟩
                have hm := (Except.ok.inj h).symm
                subst hm
                simp [hq]
              · cases h
          · rw [if_neg hq] at h
            cases h
      · exact absurd h (by simp)

/-- Witness for C5: the four-field training file name normal_id_00_...
parses with label 0 under the normal prefix. -/
theorem C5_label_from_prefix_witness :
    (((splitUnd (fileName exFileA).data).map String.mk).length = 4 ∧
      exMetaA.targets = (if ((splitUnd (fileName exFileA).data).map String.mk).headD ("") = ("normal")
        then 0 else 1) ∧
      (((splitUnd (fileName exFileA).data).map String.mk).headD ("") = ("normal") ∨
       ((splitUnd (fileName exFileA).data).map String.mk).headD ("") = ("anomaly"))) ∨
    (((splitUnd (fileName exFileA).data).map String.mk).length = 3 ∧ exMetaA.targets = -1) :=
  C5_label_from_prefix ("fan") 0 exFileA exMetaA (by decide)

/-! ## Inversion of the constructor and window arithmetic -/

/-- The metadata list has one entry per file. -/
lemma loadMetaData_length {selfType : String} {machineId : Int} :
    ∀ {files : List AudioFile} {ms : List MetaData},
      loadMetaData selfType machineId files = Except.ok ms → ms.length = files.length := by
  intro files
  induction files with
  | nil =>
    intro ms h
    simp only [loadMetaData] at h
    rw [← Except.ok.inj h]
    rfl
  | cons f fs ih =>
    intro ms h
    simp only [loadMetaData] at h
    split at h
    · cases h
    · split at h
      · cases h
      · rename_i ms' hms'
        rw [← Except.ok.inj h]
        simp [ih hms']

/-- A successful cache-miss build has file_length times the file count
columns. -/
lemma buildDataE_length {β : Type} {feat : AudioFile → Except Unit (List (List β))}
    {fl : Nat} : ∀ {files : List AudioFile} {d : List (List β)},
      buildDataE feat fl files = Except.ok d → d.length = fl * files.length := by
  intro files
  induction files with
  | nil =>
    intro d h
    simp only [buildDataE] at h
    rw [← Except.ok.inj h]
    simp
  | cons f fs ih =>
    intro d h
    simp only [buildDataE] at h
    split at h
    · cases h
    · split at h
      · rename_i hlen
        split at h
        · cases h
        · rename_i rest hrest
          rw [← Except.ok.inj h]
          rw [List.length_append, hlen, ih hrest, List.length_cons, Nat.mul_succ]
          omega
      · cases h

/-- What a successful MachineDataSet construction determines about the
resulting dataset object. -/
lemma initDS_ok_inv {A β : Type} {env : Env A β} {cfg : Config} {files : List AudioFile}
    {cache : Cache β} {ds : MachineDS β} {c' : Cache β}
    (h : initDS env cfg files cache = Except.ok (ds, c')) :
    ds.files = files ∧ ds.context = cfg.context ∧ ds.mode = cfg.mode ∧
    ds.hopAll = effHopAll cfg ∧
    ds.numSamplesPerFile = nspfOf cfg ds.fileLength ∧
    ds.metaData.length = files.length ∧
    loadData cache cfg.dataRoot (cacheParamsOf cfg) ds.fileLength (fileFeat env cfg) files =
      Except.ok (ds.data, c') := by
  unfold initDS at h
  split at h
  · split at h
    · cases h
    · split at h
      · cases h
      · split at h
        · cases h
        · split at h
          · cases h
          · rename_i md hmd
            split at h
            · cases h
            · rename_i dc hdc
              have hpair := Except.ok.inj h
              rw [Prod.mk.injEq] at hpair
              obtain ⟨hds, hc'⟩ := hpair
              subst hds
              subst hc'
              refine ⟨rfl, rfl, rfl, rfl, rfl, loadMetaData_length hmd, ?_⟩
              rw [hdc]
  · cases h

/-- On the cache-miss path (empty cache) the stored data is the freshly
built array. -/
lemma initDS_empty_build {A β : Type} {env : Env A β} {cfg : Config}
    {files : List AudioFile} {ds : MachineDS β} {c' : Cache β}
    (h : initDS env cfg files [] = Except.ok (ds, c')) :
    buildDataE (fileFeat env cfg) ds.fileLength files = Except.ok ds.data := by
  obtain ⟨-, -, -, -, -, -, hload⟩ := initDS_ok_inv h
  unfold loadData at hload
  simp only [lookupCache] at hload
  split at hload
  · cases hload
  · rename_i d hd
    have hpair := Except.ok.inj hload
    rw [Prod.mk.injEq] at hpair
    rw [hd, hpair.1]

/-- Bounds satisfied by the file index, in-file offset and scaled offset of
any valid linear index, under both windowing modes. -/
lemma window_bounds {fl c n i nf : Int} (hc : 0 < c) (hcfl : c ≤ fl)
    (hopAll : Bool)
    (hn : n = if hopAll then Int.fdiv fl c else fl - c + 1)
    (hi0 : 0 ≤ i) (hi : i < nf * n) :
    0 < n ∧ 0 ≤ Int.fdiv i n ∧ Int.fdiv i n < nf ∧
    0 ≤ Int.fmod i n ∧ Int.fmod i n < n ∧
    0 ≤ (if hopAll then Int.fmod i n * c else Int.fmod i n) ∧
    (if hopAll then Int.fmod i n * c else Int.fmod i n) + c ≤ fl := by
  have hn0 : 0 < n := by
    cases hopAll with
    | false =>
      simp only [Bool.false_eq_true, if_false] at hn
      omega
    | true =>
      simp only [if_true] at hn
      have key2 := Int.fmod_add_fdiv fl c
      have h1 : fl.fmod c < c := Int.fmod_lt_of_pos fl hc
      have h2 : 0 ≤ fl.fmod c := Int.fmod_nonneg' fl hc
      rw [← hn] at key2
      by_contra hle
      push_neg at hle
      have hcn : c * n ≤ c * 0 := mul_le_mul_of_nonneg_left hle (le_of_lt hc)
      simp only [mul_zero] at hcn
      linarith
  have key := Int.fmod_add_fdiv i n
  have hr0 : 0 ≤ i.fmod n := Int.fmod_nonneg' i hn0
  have hrn : i.fmod n < n := Int.fmod_lt_of_pos i hn0
  have hk0 : 0 ≤ i.fdiv n := by
    by_contra hneg
    push_neg at hneg
    have h1 : i.fdiv n ≤ -1 := by omega
    have h2 : n * i.fdiv n ≤ n * (-1) := mul_le_mul_of_nonneg_left h1 (le_of_lt hn0)
    linarith
  have hknf : i.fdiv n < nf := by
    have h1 : n * i.fdiv n < n * nf := by
      have hcm : nf * n = n * nf := mul_comm nf n
      linarith
    exact lt_of_mul_lt_mul_left h1 (le_of_lt hn0)
  refine ⟨hn0, hk0, hknf, hr0, hrn, ?_, ?_⟩
  · cases hopAll with
    | false => simpa using hr0
    | true =>
      simp only [if_true]
      exact mul_nonneg hr0 (le_of_lt hc)
  · cases hopAll with
    | false =>
      simp only [Bool.false_eq_true, if_false] at hn ⊢
      linarith
    | true =>
      simp only [if_true] at hn ⊢
      have key2 := Int.fmod_add_fdiv fl c
      have hm2 : 0 ≤ fl.fmod c := Int.fmod_nonneg' fl hc
      have h1 : i.fmod n + 1 ≤ n := by omega
      have h2 : (i.fmod n + 1) * c ≤ n * c := mul_le_mul_of_nonneg_right h1 (le_of_lt hc)
      have h3 : c * n ≤ fl := by
        rw [hn]
        linarith
      have h4 : (i.fmod n + 1) * c = i.fmod n * c + c := by ring
      have h5 : n * c = c * n := mul_comm n c
      linarith

/-- Python slicing with in-range non-negative bounds returns exactly the
requested width. -/
lemma pySlice_length {α : Type} (xs : List α) (a b : Int) (ha : 0 ≤ a) (hab : a ≤ b)
    (hb : b ≤ (xs.length : Int)) : (pySlice xs a b).length = (b - a).toNat := by
  unfold pySlice sliceBound
  rw [if_neg (by omega), if_neg (by omega)]
  simp only [List.length_drop, List.length_take]
  omega

/-- A slice is drawn from the sliced list. -/
lemma pySlice_subset {α : Type} {xs : List α} {a b : Int} {x : α}
    (h : x ∈ pySlice xs a b) : x ∈ xs := by
  unfold pySlice at h
  exact ((List.drop_sublist _ _).trans (List.take_sublist _ _)).subset h

/-- Python indexing succeeds on an in-range non-negative index. -/
lemma pyGet_lt {α : Type} (xs : List α) (i : Int) (h0 : 0 ≤ i)
    (h : i < (xs.length : Int)) : ∃ x, pyGet xs i = some x := by
  unfold pyGet
  rw [if_pos h0]
  have hlt : i.toNat < xs.length := by omega
  exact ⟨xs.get ⟨i.toNat, hlt⟩, by simp [List.getElem?_eq_getElem hlt]⟩

/-- The slice geometry of a valid index of a freshly built dataset: the
file index is in range, the slice stays inside the block of that file, and
it has exactly context columns. -/
lemma slice_facts {A β : Type} {env : Env A β} {cfg : Config}
    {files : List AudioFile} {ds : MachineDS β} {c' : Cache β} {i : Int}
    (h : initDS env cfg files [] = Except.ok (ds, c'))
    (hc : 0 < cfg.context) (hcfl : cfg.context ≤ (ds.fileLength : Int))
    (hi0 : 0 ≤ i) (hi : i < dsLen ds) :
    0 ≤ Int.fdiv i ds.numSamplesPerFile ∧
    Int.fdiv i ds.numSamplesPerFile < (ds.files.length : Int) ∧
    Int.fdiv i ds.numSamplesPerFile * (ds.fileLength : Int) ≤ sliceStart ds i ∧
    sliceStart ds i + cfg.context ≤
      (Int.fdiv i ds.numSamplesPerFile + 1) * (ds.fileLength : Int) ∧
    0 ≤ sliceStart ds i ∧
    sliceStart ds i + cfg.context ≤ (ds.data.length : Int) ∧
    (pySlice ds.data (sliceStart ds i) (sliceStart ds i + cfg.context)).length =
      cfg.context.toNat := by
  obtain ⟨hfiles, hctx2, hmode2, hhop, hnspf, hmeta, hload⟩ := initDS_ok_inv h
  have hdata : ds.data.length = ds.fileLength * files.length :=
    buildDataE_length (initDS_empty_build h)
  have hn : ds.numSamplesPerFile =
      if ds.hopAll then Int.fdiv (ds.fileLength : Int) cfg.context
      else (ds.fileLength : Int) - cfg.context + 1 := by
    rw [hnspf, hhop]
    rfl
  rw [dsLen] at hi
  obtain ⟨hn0, hk0, hknf, hr0, hrn, hoff0, hoffc⟩ :=
    window_bounds hc hcfl ds.hopAll hn hi0 hi
  have hst : sliceStart ds i =
      Int.fdiv i ds.numSamplesPerFile * (ds.fileLength : Int) +
        (if ds.hopAll then Int.fmod i ds.numSamplesPerFile * cfg.context
         else Int.fmod i ds.numSamplesPerFile) := by
    unfold sliceStart windowStart
    rw [hctx2]
  have hfl0 : (0 : Int) ≤ (ds.fileLength : Int) := Int.ofNat_nonneg _
  have hlow : Int.fdiv i ds.numSamplesPerFile * (ds.fileLength : Int) ≤ sliceStart ds i := by
    rw [hst]
    linarith
  have hhigh : sliceStart ds i + cfg.context ≤
      (Int.fdiv i ds.numSamplesPerFile + 1) * (ds.fileLength : Int) := by
    rw [hst]
    have : (Int.fdiv i ds.numSamplesPerFile + 1) * (ds.fileLength : Int) =
        Int.fdiv i ds.numSamplesPerFile * (ds.fileLength : Int) + (ds.fileLength : Int) := by
      ring
    linarith
  have hst0 : 0 ≤ sliceStart ds i := by
    have : 0 ≤ Int.fdiv i ds.numSamplesPerFile * (ds.fileLength : Int) :=
      mul_nonneg hk0 hfl0
    linarith
  have hdlen : sliceStart ds i + cfg.context ≤ (ds.data.length : Int) := by
    have h1 : Int.fdiv i ds.numSamplesPerFile + 1 ≤ (ds.files.length : Int) := by omega
    have h2 : (Int.fdiv i ds.numSamplesPerFile + 1) * (ds.fileLength : Int) ≤
        (ds.files.length : Int) * (ds.fileLength : Int) :=
      mul_le_mul_of_nonneg_right h1 hfl0
    have h3 : (ds.data.length : Int) = (ds.files.length : Int) * (ds.fileLength : Int) := by
      rw [hdata, hfiles]
      push_cast
      ring
    linarith
  refine ⟨hk0, hknf, hlow, hhigh, hst0, hdlen, ?_⟩
  rw [pySlice_length ds.data _ _ hst0 (by linarith) hdlen]
  omega

/-! ## Theorems: dataset length (claim C2) -/

/-- Claim C2: the dataset length is the file count times the windows per
file, where windows per file is the floor of file_length over context under
non-overlapping windowing and file_length minus context plus one under
sliding windowing. -/
theorem C2_len_windows {A β : Type} (env : Env A β) (cfg : Config)
    (files : List AudioFile) (cache : Cache β) (ds : MachineDS β) (c' : Cache β) (c : Nat)
    (h : initDS env cfg files cache = Except.ok (ds, c'))
    (hctx : cfg.context = (c : Int)) (hc : 0 < c) (hcfl : c ≤ ds.fileLength) :
    dsLen ds = (ds.files.length : Int) *
      (if ds.hopAll then ((ds.fileLength / c : Nat) : Int)
       else ((ds.fileLength - c + 1 : Nat) : Int)) := by
  obtain ⟨hfiles, hctx2, hmode2, hhop, hnspf, hmeta, hload⟩ := initDS_ok_inv h
  unfold dsLen
  congr 1
  rw [hnspf]
  unfold nspfOf
  rw [← hhop]
  cases hds : ds.hopAll with
  | true =>
    simp only [if_true]
    rw [hctx]
    rw [Int.fdiv_eq_ediv _ (by omega)]
    exact (Int.ofNat_ediv _ _).symm
  | false =>
    simp only [Bool.false_eq_true, if_false]
    rw [hctx]
    omega

/-- Witness for C2: two files of length 4 with context 2 and sliding
windows give six samples. -/
theorem C2_len_windows_witness : dsLen exDS = 6 :=
  (C2_len_windows exEnv exCfg [exFileA, exFileB] [] exDS [(exPath, exData)] 2
    (by decide) (by decide) (by decide) (by decide)).trans (by decide)

/-! ## Theorems: validation windowing (claim C4) -/

/-- Claim C4: a validation-mode dataset uses sliding windows no matter what
hop_all the caller passed: the stored flag is off, windows per file is
file_length minus context plus one, and the slice start of two consecutive
indices inside the same file differs by one frame. -/
theorem C4_validation_sliding {A β : Type} (env : Env A β) (cfg : Config)
    (files : List AudioFile) (cache : Cache β) (ds : MachineDS β) (c' : Cache β)
    (hmode : cfg.mode = Mode.validation)
    (h : initDS env cfg files cache = Except.ok (ds, c')) :
    ds.hopAll = false ∧
    ds.numSamplesPerFile = (ds.fileLength : Int) - cfg.context + 1 ∧
    ∀ i : Int, Int.fdiv (i + 1) ds.numSamplesPerFile = Int.fdiv i ds.numSamplesPerFile →
      sliceStart ds (i + 1) = sliceStart ds i + 1 := by
  obtain ⟨hfiles, hctx2, hmode2, hhop, hnspf, hmeta, hload⟩ := initDS_ok_inv h
  have heff : effHopAll cfg = false := by
    unfold effHopAll
    rw [if_pos hmode]
  have hhopf : ds.hopAll = false := by rw [hhop, heff]
  have hn : ds.numSamplesPerFile = (ds.fileLength : Int) - cfg.context + 1 := by
    rw [hnspf]
    unfold nspfOf
    rw [heff]
    simp
  refine ⟨hhopf, hn, ?_⟩
  intro i hdiv
  unfold sliceStart windowStart
  rw [hhopf]
  simp only [Bool.false_eq_true, if_false]
  rw [hdiv]
  have e1 := Int.fmod_add_fdiv (i + 1) ds.numSamplesPerFile
  have e2 := Int.fmod_add_fdiv i ds.numSamplesPerFile
  rw [hdiv] at e1
  linarith

/-- Witness for C4: the validation-mode example dataset, built with
hop_all requested, still uses sliding windows. -/
theorem C4_validation_sliding_witness :
    exDSV.hopAll = false ∧
    exDSV.numSamplesPerFile = (exDSV.fileLength : Int) - exCfgV.context + 1 ∧
    sliceStart exDSV 1 = sliceStart exDSV 0 + 1 := by
  have H := C4_validation_sliding exEnv exCfgV [exFileA, exFileB] [] exDSV
    [(exPathV, exData)] (by decide) (by decide)
  exact ⟨H.1, H.2.1, H.2.2 0 (by decide)⟩

/-! ## Theorems: slice stays inside the file block (claim C10) -/

/-- Claim C10: for every valid linear index of a freshly built dataset, the
derived file index is in range, the slice of width context starting at the
computed global offset lies inside the block of that file, and the returned
observation has exactly context columns. -/
theorem C10_slice_in_file {A β : Type} (env : Env A β) (cfg : Config)
    (files : List AudioFile) (ds : MachineDS β) (c' : Cache β) (i : Int)
    (h : initDS env cfg files [] = Except.ok (ds, c'))
    (hc : 0 < cfg.context) (hcfl : cfg.context ≤ (ds.fileLength : Int))
    (hi0 : 0 ≤ i) (hi : i < dsLen ds) :
    0 ≤ Int.fdiv i ds.numSamplesPerFile ∧
    Int.fdiv i ds.numSamplesPerFile < (ds.files.length : Int) ∧
    Int.fdiv i ds.numSamplesPerFile * (ds.fileLength : Int) ≤ sliceStart ds i ∧
    sliceStart ds i + cfg.context ≤
      (Int.fdiv i ds.numSamplesPerFile + 1) * (ds.fileLength : Int) ∧
    (pySlice ds.data (sliceStart ds i) (sliceStart ds i + cfg.context)).length =
      cfg.context.toNat := by
  obtain ⟨h1, h2, h3, h4, h5, h6, h7⟩ := slice_facts h hc hcfl hi0 hi
  exact ⟨h1, h2, h3, h4, h7⟩

/-- Witness for C10 at linear index 5 of the example dataset: file index 1,
in-file offset 2, slice columns 6 and 7 inside the second file block. -/
theorem C10_slice_in_file_witness :
    0 ≤ Int.fdiv 5 exDS.numSamplesPerFile ∧
    Int.fdiv 5 exDS.numSamplesPerFile < (exDS.files.length : Int) ∧
    Int.fdiv 5 exDS.numSamplesPerFile * (exDS.fileLength : Int) ≤ sliceStart exDS 5 ∧
    sliceStart exDS 5 + exCfg.context ≤
      (Int.fdiv 5 exDS.numSamplesPerFile + 1) * (exDS.fileLength : Int) ∧
    (pySlice exDS.data (sliceStart exDS 5) (sliceStart exDS 5 + exCfg.context)).length =
      exCfg.context.toNat :=
  C10_slice_in_file exEnv exCfg [exFileA, exFileB] exDS [(exPath, exData)] 5
    (by decide) (by decide) (by decide) (by decide) (by decide)

/-! ## Theorems: __getitem__ structure (claim C6) -/

/-- Pad/truncate keeps columns of the original matrix. -/
lemma colsOf_padTruncate {β : Type} {n fl : Nat} {m : List (List β)} (h : ColsOf n m) :
    ColsOf n (padTruncate fl m) := by
  unfold padTruncate
  split_ifs with h1 h2
  · intro c hc
    rcases List.mem_append.mp hc with hmem | hmem
    · exact h c hmem
    · exact h c (List.mem_of_mem_take hmem)
  · intro c hc
    exact h c (List.mem_of_mem_take hc)
  · exact h

/-- All columns of a built array come from some per-file matrix. -/
lemma colsOf_buildDataE {β : Type} {n fl : Nat}
    {feat : AudioFile → Except Unit (List (List β))}
    (hfeat : ∀ f m, feat f = Except.ok m → ColsOf n m) :
    ∀ {files : List AudioFile} {d : List (List β)},
      buildDataE feat fl files = Except.ok d → ColsOf n d := by
  intro files
  induction files with
  | nil =>
    intro d h
    simp only [buildDataE] at h
    rw [← Except.ok.inj h]
    intro c hc
    simp at hc
  | cons f fs ih =>
    intro d h
    simp only [buildDataE] at h
    split at h
    · cases h
    · rename_i m hm
      split at h
      · split at h
        · cases h
        · rename_i rest hrest
          rw [← Except.ok.inj h]
          intro c hc
          rcases List.mem_append.mp hc with hmem | hmem
          · exact colsOf_padTruncate (hfeat f m hm) c hmem
          · exact ih hrest c hmem
      · cases h

/-- A per-file feature matrix has num_mel rows in every column, given that
the mel-spectrogram does and the dB conversions preserve it. -/
lemma colsOf_fileFeat {A β : Type} {env : Env A β} {cfg : Config}
    (hmel : ∀ x, ColsOf cfg.numMel
      (env.melFn cfg.nFft cfg.hopSize cfg.numMel cfg.power cfg.fmin x))
    (hamp : ∀ m, ColsOf cfg.numMel m → ColsOf cfg.numMel (env.ampToDb m))
    (hpow : ∀ m, ColsOf cfg.numMel m → ColsOf cfg.numMel (env.powToDb m)) :
    ∀ f m, fileFeat env cfg f = Except.ok m → ColsOf cfg.numMel m := by
  intro f m h
  simp only [fileFeat, loadPreprocessFile] at h
  split_ifs at h <;>
    first
      | (rw [← Except.ok.inj h]; exact hamp _ (hmel _))
      | (rw [← Except.ok.inj h]; exact hpow _ (hmel _))

/-- Claim C6: for every valid linear index of a freshly built dataset,
__getitem__ succeeds and returns the metadata of file i // nspf together
with the slice of width context starting at the offset derived from
i % nspf (scaled by context under non-overlapping windowing), wrapped in a
leading singleton channel dimension, so the observation has shape
(1, num_mel, context). -/
theorem C6_getitem_structure {A β : Type} (env : Env A β) (cfg : Config)
    (files : List AudioFile) (ds : MachineDS β) (c' : Cache β) (i : Int)
    (h : initDS env cfg files [] = Except.ok (ds, c'))
    (hmel : ∀ x, ColsOf cfg.numMel
      (env.melFn cfg.nFft cfg.hopSize cfg.numMel cfg.power cfg.fmin x))
    (hamp : ∀ m, ColsOf cfg.numMel m → ColsOf cfg.numMel (env.ampToDb m))
    (hpow : ∀ m, ColsOf cfg.numMel m → ColsOf cfg.numMel (env.powToDb m))
    (hc : 0 < cfg.context) (hcfl : cfg.context ≤ (ds.fileLength : Int))
    (hi0 : 0 ≤ i) (hi : i < dsLen ds) :
    ∃ md, pyGet ds.metaData (Int.fdiv i ds.numSamplesPerFile) = some md ∧
      getItem ds i = some
        { meta := md,
          observations :=
            [pySlice ds.data (sliceStart ds i) (sliceStart ds i + cfg.context)] } ∧
      (pySlice ds.data (sliceStart ds i) (sliceStart ds i + cfg.context)).length =
        cfg.context.toNat ∧
      ∀ col ∈ pySlice ds.data (sliceStart ds i) (sliceStart ds i + cfg.context),
        col.length = cfg.numMel := by
  obtain ⟨hfiles, hctx2, hmode2, hhop, hnspf, hmeta, hload⟩ := initDS_ok_inv h
  obtain ⟨hk0, hknf, hlow, hhigh, hst0, hdlen, hslen⟩ := slice_facts h hc hcfl hi0 hi
  have hmlen : (ds.metaData.length : Int) = (ds.files.length : Int) := by
    rw [hmeta, hfiles]
  obtain ⟨md, hmd⟩ := pyGet_lt ds.metaData (Int.fdiv i ds.numSamplesPerFile) hk0
    (by rw [hmlen]; exact hknf)
  have hcols : ColsOf cfg.numMel ds.data :=
    colsOf_buildDataE (colsOf_fileFeat hmel hamp hpow) (initDS_empty_build h)
  refine ⟨md, hmd, ?_, hslen, ?_⟩
  · unfold getItem
    rw [hmd, hctx2]
    rfl
  · intro col hcol
    exact hcols col (pySlice_subset hcol)

/-- Witness for C6 at linear index 0 of the example dataset. -/
theorem C6_getitem_structure_witness :
    ∃ md, pyGet exDS.metaData (Int.fdiv 0 exDS.numSamplesPerFile) = some md ∧
      getItem exDS 0 = some
        { meta := md,
          observations :=
            [pySlice exDS.data (sliceStart exDS 0) (sliceStart exDS 0 + exCfg.context)] } ∧
      (pySlice exDS.data (sliceStart exDS 0) (sliceStart exDS 0 + exCfg.context)).length =
        exCfg.context.toNat ∧
      ∀ col ∈ pySlice exDS.data (sliceStart exDS 0) (sliceStart exDS 0 + exCfg.context),
        col.length = exCfg.numMel :=
  C6_getitem_structure exEnv exCfg [exFileA, exFileB] exDS [(exPath, exData)] 0
    (by decide)
    (by
      intro x c hc
      rcases List.mem_map.mp hc with ⟨y, hy, rfl⟩
      decide)
    (fun m hm => hm) (fun m hm => hm)
    (by decide) (by decide) (by decide) (by decide)

/-! ## Decimal rendering is injective and separator-free -/

/-- Every extracted digit is below the base. -/
lemma natDigitsAux_lt : ∀ (fuel n : Nat), ∀ d ∈ natDigitsAux fuel n, d < 10 := by
  intro fuel
  induction fuel with
  | zero =>
    intro n d hd
    simp [natDigitsAux] at hd
  | succ f ih =>
    intro n d hd
    cases n with
    | zero => simp [natDigitsAux] at hd
    | succ m =>
      simp only [natDigitsAux, List.mem_cons] at hd
      rcases hd with rfl | hd
      · exact Nat.mod_lt _ (by omega)
      · exact ih _ _ hd

/-- With enough fuel the digit list evaluates back to the number. -/
lemma digitsVal_natDigitsAux : ∀ (fuel n : Nat), n ≤ fuel →
    digitsVal (natDigitsAux fuel n) = n := by
  intro fuel
  induction fuel with
  | zero =>
    intro n h
    have hn : n = 0 := by omega
    subst hn
    rfl
  | succ f ih =>
    intro n h
    cases n with
    | zero => rfl
    | succ m =>
      simp only [natDigitsAux, digitsVal]
      have hle : (m + 1) / 10 ≤ f := by
        have := Nat.div_lt_self (Nat.succ_pos m) (by omega : 1 < 10)
        omega
      rw [ih _ hle]
      omega

/-- The digit list evaluates back to the number. -/
lemma digitsVal_natDigits (n : Nat) : digitsVal (natDigits n) = n :=
  digitsVal_natDigitsAux n n le_rfl

/-- Digit bounds for natDigits. -/
lemma natDigits_lt (n : Nat) : ∀ d ∈ natDigits n, d < 10 := natDigitsAux_lt n n

/-- Decimal digit extraction is injective. -/
lemma natDigits_inj {m n : Nat} (h : natDigits m = natDigits n) : m = n := by
  have h1 := digitsVal_natDigits m
  have h2 := digitsVal_natDigits n
  rw [h] at h1
  omega

/-- Digit characters of distinct digits differ. -/
lemma digitChar_injOn : ∀ a < 10, ∀ b < 10, Nat.digitChar a = Nat.digitChar b → a = b := by
  decide

/-- Digit characters are neither the underscore nor the minus sign. -/
lemma digitChar_not_special : ∀ d < 10, Nat.digitChar d ≠ '_' ∧ Nat.digitChar d ≠ '-' := by
  decide

/-- Mapping digitChar over digit lists is injective. -/
lemma map_digitChar_inj : ∀ {l1 l2 : List Nat}, (∀ d ∈ l1, d < 10) → (∀ d ∈ l2, d < 10) →
    l1.map Nat.digitChar = l2.map Nat.digitChar → l1 = l2 := by
  intro l1
  induction l1 with
  | nil =>
    intro l2 _ _ h
    cases l2 with
    | nil => rfl
    | cons e l2 => simp at h
  | cons d l ih =>
    intro l2 h1 h2 h
    cases l2 with
    | nil => simp at h
    | cons e l2 =>
      simp only [List.map_cons, List.cons.injEq] at h
      obtain ⟨hde, ht⟩ := h
      have hd := digitChar_injOn d (h1 d (List.mem_cons_self d l)) e
        (h2 e (List.mem_cons_self e l2)) hde
      subst hd
      rw [ih (fun x hx => h1 x (List.mem_cons_of_mem _ hx))
        (fun x hx => h2 x (List.mem_cons_of_mem _ hx)) ht]

/-- The decimal rendering of a natural number is non-empty and avoids both
the underscore separator and the minus sign. -/
lemma natStr_chars (n : Nat) :
    (natStr n).data ≠ [] ∧ ∀ ch ∈ (natStr n).data, ch ≠ '_' ∧ ch ≠ '-' := by
  unfold natStr
  split_ifs with h
  · exact ⟨by decide, by decide⟩
  · constructor
    · show ((natDigits n).reverse.map Nat.digitChar) ≠ []
      cases n with
      | zero => exact absurd rfl h
      | succ m =>
        have hne : natDigits (m + 1) = ((m + 1) % 10) :: natDigitsAux m ((m + 1) / 10) := rfl
        rw [hne]
        simp
    · intro ch hch
      rcases List.mem_map.mp hch with ⟨d, hd, rfl⟩
      exact digitChar_not_special d (natDigits_lt n d (List.mem_reverse.mp hd))

/-- Decimal rendering of naturals is injective. -/
lemma natStr_inj {m n : Nat} (h : natStr m = natStr n) : m = n := by
  have hdata := congrArg String.data h
  unfold natStr at hdata
  split_ifs at hdata with hm hn
  · omega
  · exfalso
    have h1 : (natDigits n).reverse.map Nat.digitChar = [('0')] := by
      simpa using hdata.symm
    have h2 : (natDigits n).reverse = [0] :=
      map_digitChar_inj (fun d hd => natDigits_lt n d (List.mem_reverse.mp hd))
        (by intro d hd; simp at hd; omega) (h1.trans (by decide))
    have h3 : natDigits n = [0] := by
      have := congrArg List.reverse h2
      simpa using this
    have h4 := digitsVal_natDigits n
    rw [h3] at h4
    simp [digitsVal] at h4
    exact hn h4.symm
  · exfalso
    have h1 : (natDigits m).reverse.map Nat.digitChar = [('0')] := by
      simpa using hdata
    have h2 : (natDigits m).reverse = [0] :=
      map_digitChar_inj (fun d hd => natDigits_lt m d (List.mem_reverse.mp hd))
        (by intro d hd; simp at hd; omega) (h1.trans (by decide))
    have h3 : natDigits m = [0] := by
      have := congrArg List.reverse h2
      simpa using this
    have h4 := digitsVal_natDigits m
    rw [h3] at h4
    simp [digitsVal] at h4
    exact hm h4.symm
  · have h1 : (natDigits m).reverse.map Nat.digitChar =
        (natDigits n).reverse.map Nat.digitChar := by
      simpa using hdata
    have h2 := map_digitChar_inj (fun d hd => natDigits_lt m d (List.mem_reverse.mp hd))
      (fun d hd => natDigits_lt n d (List.mem_reverse.mp hd)) h1
    have h3 : natDigits m = natDigits n := by
      have := congrArg List.reverse h2
      simpa using this
    exact natDigits_inj h3

/-- The underscore never occurs in a rendered natural number. -/
lemma natStr_no_und (n : Nat) : ('_') ∉ (natStr n).data :=
  fun h => ((natStr_chars n).2 _ h).1 rfl

/-- Decimal rendering of integers is injective. -/
lemma intStr_inj {i j : Int} (h : intStr i = intStr j) : i = j := by
  have hdata := congrArg String.data h
  unfold intStr at hdata
  split_ifs at hdata with hi hj
  · rw [String.data_append, String.data_append] at hdata
    have h1 : (natStr (-i).toNat).data = (natStr (-j).toNat).data := by
      simpa using hdata
    have h2 := natStr_inj (String.ext h1)
    omega
  · exfalso
    rw [String.data_append] at hdata
    have hmem : ('-') ∈ (natStr j.toNat).data := by
      rw [← hdata]
      simp
    exact ((natStr_chars _).2 _ hmem).2 rfl
  · exfalso
    rw [String.data_append] at hdata
    have hmem : ('-') ∈ (natStr i.toNat).data := by
      rw [hdata]
      simp
    exact ((natStr_chars _).2 _ hmem).2 rfl
  · have h2 := natStr_inj (String.ext hdata)
    omega

/-- The underscore never occurs in a rendered integer. -/
lemma intStr_no_und (i : Int) : ('_') ∉ (intStr i).data := by
  unfold intStr
  split_ifs with h
  · intro hmem
    rw [String.data_append] at hmem
    rcases List.mem_append.mp hmem with hmem | hmem
    · simp at hmem
    · exact ((natStr_chars _).2 _ hmem).1 rfl
  · exact natStr_no_und _

/-- Bool rendering is injective. -/
lemma boolStr_inj : ∀ {a b : Bool}, boolStr a = boolStr b → a = b := by decide

/-- The underscore never occurs in a rendered bool. -/
lemma boolStr_no_und : ∀ (b : Bool), ('_') ∉ (boolStr b).data := by decide

/-- Mode rendering is injective. -/
lemma modeStr_inj : ∀ {a b : Mode}, modeStr a = modeStr b → a = b := by
  intro a b
  cases a <;> cases b <;> intro h
  · rfl
  · exact absurd h (by decide)
  · exact absurd h (by decide)
  · rfl

/-- The underscore never occurs in a rendered mode. -/
lemma modeStr_no_und : ∀ (m : Mode), ('_') ∉ (modeStr m).data := by
  intro m
  cases m <;> decide

/-- The two reachable power values render distinctly. -/
lemma pyFloatStr_one : pyFloatStr 1 = ("1.0") := by decide

/-- The rendering of power 2. -/
lemma pyFloatStr_two : pyFloatStr 2 = ("2.0") := by decide

/-- On the two reachable power values the float rendering is injective. -/
lemma pyFloat_inj12 : ∀ {p q : ℚ}, (p = 1 ∨ p = 2) → (q = 1 ∨ q = 2) →
    pyFloatStr p = pyFloatStr q → p = q := by
  rintro p q (rfl | rfl) (rfl | rfl) h
  · rfl
  · exfalso
    rw [pyFloatStr_one, pyFloatStr_two] at h
    exact absurd h (by decide)
  · exfalso
    rw [pyFloatStr_one, pyFloatStr_two] at h
    exact absurd h.symm (by decide)
  · rfl

/-- The underscore never occurs in a rendered reachable power. -/
lemma pyFloat12_no_und : ∀ {p : ℚ}, (p = 1 ∨ p = 2) → ('_') ∉ (pyFloatStr p).data := by
  rintro p (rfl | rfl) <;> decide

/-- Splitting at the first underscore is unambiguous when neither prefix
contains one. -/
lemma und_split : ∀ {a b u v : List Char}, ('_') ∉ a → ('_') ∉ b →
    a ++ ('_') :: u = b ++ ('_') :: v → a = b ∧ u = v := by
  intro a
  induction a with
  | nil =>
    intro b u v _ hb h
    cases b with
    | nil => simpa using h
    | cons c cs =>
      simp only [List.nil_append, List.cons_append, List.cons.injEq] at h
      exfalso
      apply hb
      rw [← h.1]
      exact List.mem_cons_self _ _
  | cons x xs ih =>
    intro b u v ha hb h
    cases b with
    | nil =>
      simp only [List.cons_append, List.nil_append, List.cons.injEq] at h
      exfalso
      apply ha
      rw [h.1]
      exact List.mem_cons_self _ _
    | cons y ys =>
      simp only [List.cons_append, List.cons.injEq] at h
      obtain ⟨hxy, ht⟩ := h
      subst hxy
      have hrec := ih (fun hm => ha (List.mem_cons_of_mem _ hm))
        (fun hm => hb (List.mem_cons_of_mem _ hm)) ht
      exact ⟨by rw [hrec.1], hrec.2⟩

/-- The underscore separator as a character list. -/
lemma und_data : ("_" : String).data = [('_')] := rfl

/-- The character-level shape of the formatted cache file name. -/
lemma cacheFileName_data (p : CacheParams) : (cacheFileName p).data =
    (natStr p.numMel).data ++ ('_') :: ((natStr p.nFft).data ++ ('_') ::
    ((natStr p.hopSize).data ++ ('_') :: ((pyFloatStr p.power).data ++ ('_') ::
    ((modeStr p.mode).data ++ ('_') :: (p.machineType.data ++ ('_') ::
    ((intStr p.machineId).data ++ ('_') :: ((boolStr p.normalize).data ++ ('_') ::
    ((intStr p.fmin).data ++ (".npy" : String).data)))))))) := by
  simp [cacheFileName, String.data_append, und_data]

/-! ## Theorems: cache key determines cache content (claim C3) -/

/-- Claim C3: the cache file name is a deterministic, injective function of
the nine formatted parameters (for the reachable power values and
underscore-free machine-type names, which is all the construction can
produce), and a second load with identical parameters returns the array
saved by the first load, without recomputing and whatever the extraction
function or file list would now produce. -/
theorem C3_cache_key {β : Type} (p q : CacheParams)
    (hp : p.power = 1 ∨ p.power = 2) (hq : q.power = 1 ∨ q.power = 2)
    (hmp : ('_') ∉ p.machineType.data) (hmq : ('_') ∉ q.machineType.data) :
    (cacheFileName p = cacheFileName q ↔ p = q) ∧
    (∀ (root : String) (fl fl2 : Nat)
       (feat feat2 : AudioFile → Except Unit (List (List β)))
       (files files2 : List AudioFile) (c0 c1 : Cache β) (d : List (List β)),
       lookupCache (cachePath root p) c0 = none →
       loadData c0 root p fl feat files = Except.ok (d, c1) →
       loadData c1 root p fl2 feat2 files2 = Except.ok (d, c1)) := by
  constructor
  · constructor
    · intro h
      have hd := congrArg String.data h
      rw [cacheFileName_data, cacheFileName_data] at hd
      obtain ⟨e1, hd⟩ := und_split (natStr_no_und _) (natStr_no_und _) hd
      obtain ⟨e2, hd⟩ := und_split (natStr_no_und _) (natStr_no_und _) hd
      obtain ⟨e3, hd⟩ := und_split (natStr_no_und _) (natStr_no_und _) hd
      obtain ⟨e4, hd⟩ := und_split (pyFloat12_no_und hp) (pyFloat12_no_und hq) hd
      obtain ⟨e5, hd⟩ := und_split (modeStr_no_und _) (modeStr_no_und _) hd
      obtain ⟨e6, hd⟩ := und_split hmp hmq hd
      obtain ⟨e7, hd⟩ := und_split (intStr_no_und _) (intStr_no_und _) hd
      obtain ⟨e8, hd⟩ := und_split (boolStr_no_und _) (boolStr_no_und _) hd
      have hlen : (intStr p.fmin).data.length = (intStr q.fmin).data.length := by
        have := congrArg List.length hd
        simp only [List.length_append] at this
        omega
      obtain ⟨e9, -⟩ := List.append_inj hd hlen
      have h1 := natStr_inj (String.ext e1)
      have h2 := natStr_inj (String.ext e2)
      have h3 := natStr_inj (String.ext e3)
      have h4 := pyFloat_inj12 hp hq (String.ext e4)
      have h5 := modeStr_inj (String.ext e5)
      have h6 := String.ext e6
      have h7 := intStr_inj (String.ext e7)
      have h8 := boolStr_inj (String.ext e8)
      have h9 := intStr_inj (String.ext e9)
      cases p
      cases q
      simp only [CacheParams.mk.injEq]
      exact ⟨h1, h2, h3, h4, h5, h6, h7, h8, h9⟩
    · intro h
      rw [h]
  · intro root fl fl2 feat feat2 files files2 c0 c1 d hnone hfirst
    unfold loadData at hfirst
    rw [hnone] at hfirst
    dsimp only at hfirst
    split at hfirst
    · cases hfirst
    · rename_i d0 hd0
      have hpair := Except.ok.inj hfirst
      rw [Prod.mk.injEq] at hpair
      obtain ⟨hd1, hc1⟩ := hpair
      subst hd1
      subst hc1
      unfold loadData
      simp [lookupCache]

/-- Witness for C3: the example parameters name the path exPath; a first
load from the empty cache computes and saves the array, a second load with
the same parameters returns the saved array unchanged. -/
theorem C3_cache_key_witness :
    (cacheFileName (cacheParamsOf exCfg) = cacheFileName (cacheParamsOf exCfg) ↔
      cacheParamsOf exCfg = cacheParamsOf exCfg) ∧
    (loadData ([] : Cache Int) ("root") (cacheParamsOf exCfg) 4 (fileFeat exEnv exCfg)
        [exFileA, exFileB] = Except.ok (exData, [(exPath, exData)]) ∧
      loadData [(exPath, exData)] ("root") (cacheParamsOf exCfg) 4 (fileFeat exEnv exCfg)
        [exFileA, exFileB] = Except.ok (exData, [(exPath, exData)])) := by
  have H := C3_cache_key (β := Int) (cacheParamsOf exCfg) (cacheParamsOf exCfg)
    (Or.inl (by decide)) (Or.inl (by decide)) (by decide) (by decide)
  refine ⟨H.1, by decide, ?_⟩
  exact H.2 ("root") 4 4 (fileFeat exEnv exCfg) (fileFeat exEnv exCfg)
    [exFileA, exFileB] [exFileA, exFileB] [] [(exPath, exData)] exData
    (by decide) (by decide)

/-! ## Theorems: __getitem__ mutates nothing (claim C9) -/

/-- Setting the freshly appended cell leaves every earlier cell unchanged. -/
lemma getD_set_append {α : Type} (l : List α) (d x dflt : α) (a : Nat)
    (ha : a < l.length) :
    ((l ++ [d]).set l.length x).getD a dflt = l.getD a dflt := by
  rw [List.getD_eq_getElem?_getD, List.getD_eq_getElem?_getD]
  rw [List.getElem?_set_ne (by omega)]
  rw [List.getElem?_append, if_pos ha]

/-- Reading back the freshly written cell. -/
lemma getD_set_append_self {α : Type} (l : List α) (d x dflt : α) :
    ((l ++ [d]).set l.length x).getD l.length dflt = x := by
  rw [List.getD_eq_getElem?_getD]
  have hlt : l.length < (l ++ [d]).length := by
    simp
  rw [List.getElem?_set_self hlt]
  rfl

/-- A successful Python list indexing returns an element of the list. -/
lemma pyGet_mem {α : Type} {xs : List α} {i : Int} {x : α}
    (h : pyGet xs i = some x) : x ∈ xs := by
  unfold pyGet at h
  split_ifs at h
  · obtain ⟨hk, rfl⟩ := List.getElem?_eq_some_iff.mp h
    exact List.getElem_mem hk
  · obtain ⟨hk, rfl⟩ := List.getElem?_eq_some_iff.mp h
    exact List.getElem_mem hk

/-- Claim C9: __getitem__ leaves every stored metadata dictionary (and all
other pre-existing heap cells) unchanged — the returned dictionary is a
fresh copy, so adding the observations key does not alter the stored
metadata — and calling again with the same index yields a dictionary with
identical contents.  The feature matrix and the file list are plain fields
of the dataset value and are not touched by the call at all. -/
theorem C9_getitem_no_mutation {β : Type} (ds : DS9 β) (h0 : Heap β) (i : Int)
    (a1 : Nat) (h1 : Heap β)
    (haddr : ∀ a ∈ ds.metaAddrs, a < h0.cells.length)
    (hcall : getItemRef ds h0 i = some (a1, h1)) :
    (∀ a, a < h0.cells.length → h1.cells.getD a [] = h0.cells.getD a []) ∧
    (∀ a ∈ ds.metaAddrs, h1.cells.getD a [] = h0.cells.getD a []) ∧
    (∃ a2 h2, getItemRef ds h1 i = some (a2, h2) ∧
      h2.cells.getD a2 [] = h1.cells.getD a1 []) := by
  unfold getItemRef at hcall
  cases hpg : pyGet ds.metaAddrs (Int.fdiv i ds.numSamplesPerFile) with
  | none =>
    rw [hpg] at hcall
    cases hcall
  | some a0 =>
    rw [hpg] at hcall
    have hcall2 := Option.some.inj hcall
    rw [Prod.mk.injEq] at hcall2
    obtain ⟨ha1, hh1⟩ := hcall2
    subst ha1
    subst hh1
    have hmem0 : a0 < h0.cells.length := haddr a0 (pyGet_mem hpg)
    have pres : ∀ a, a < h0.cells.length →
        (⟨(h0.cells ++ [h0.cells.getD a0 []]).set h0.cells.length
          (dictSet (h0.cells.getD a0 []) ("observations")
            (PyVal.arrV [pySlice ds.data
              (windowStart ds.numSamplesPerFile (ds.fileLength : Int) ds.context
                ds.hopAll i)
              (windowStart ds.numSamplesPerFile (ds.fileLength : Int) ds.context
                ds.hopAll i + ds.context)]))⟩ : Heap β).cells.getD a [] =
          h0.cells.getD a [] := by
      intro a ha
      exact getD_set_append h0.cells _ _ _ a ha
    refine ⟨pres, fun a ham => pres a (haddr a ham), ?_⟩
    unfold getItemRef
    rw [hpg]
    refine ⟨_, _, rfl, ?_⟩
    rw [getD_set_append_self]
    rw [getD_set_append_self]
    rw [pres a0 hmem0]

/-- Witness for C9: one call on the two-file example heap copies the first
dictionary into a fresh cell and leaves both stored dictionaries intact; a
second call returns a dictionary with the same contents. -/
theorem C9_getitem_no_mutation_witness :
    (∀ a, a < exHeap.cells.length → exHeap1.cells.getD a [] = exHeap.cells.getD a []) ∧
    (∀ a ∈ exDS9.metaAddrs, exHeap1.cells.getD a [] = exHeap.cells.getD a []) ∧
    (∃ a2 h2, getItemRef exDS9 exHeap1 0 = some (a2, h2) ∧
      h2.cells.getD a2 [] = exHeap1.cells.getD 2 []) :=
  C9_getitem_no_mutation exDS9 exHeap 0 2 exHeap1 (by decide) (by decide)

end DcaseMCM
